import Mathlib

/-!
Shallow embedding of the purekv storage engine.

Keys, values and file contents are byte sequences, modelled as `List Nat`
with each byte reduced modulo 256 where the C code truncates to a fixed
width.  The engine state carries the in-memory index (`store_`), the
segment-stack vector (`segments_`), the segment files on disk and the
intent-log (`wal`) bytes.  All integer fields of the on-disk formats are
32-bit little-endian, and every checksum is the zlib CRC-32 in its
bitwise (table-free) form.

Sources embedded here:
  - src/src/segment.cpp     (write_segment, read_segment)
  - src/src/kv_engine.cpp   (KVEngineImpl: put/get/del, flush_memtable,
                             compact_segments, read_from_segment, ctor)
  - WALImpl (append, replay) as printed in the repository README
-/

namespace PureKV

/-! ## Little-endian 32-bit fields and CRC-32 -/

/-- The four little-endian bytes of a `uint32_t` holding `n % 2^32`,
as produced by `memcpy` of the truncated length fields. -/
def u32bytes (n : Nat) : List Nat :=
  [n % 256, (n / 256) % 256, (n / 65536) % 256, (n / 16777216) % 256]

/-- Reassemble a little-endian byte sequence into a natural number,
reducing every entry to a byte as the C reads do. -/
def bytesToNatLE : List Nat → Nat
  | [] => 0
  | b :: t => b % 256 + 256 * bytesToNatLE t

/-- One shift step of the reflected CRC-32 (zlib polynomial 0xEDB88320). -/
def crcStep (c : Nat) : Nat :=
  if c % 2 = 1 then (c / 2) ^^^ 0xEDB88320 else c / 2

/-- Feed one byte into the running CRC-32 state: xor it in, then shift
eight times. -/
def crcByte (c b : Nat) : Nat :=
  crcStep (crcStep (crcStep (crcStep (crcStep (crcStep (crcStep (crcStep (c ^^^ (b % 256)))))))))

/-- zlib `crc32(0, buf, len)`: initial state `0xFFFFFFFF`, one update per
byte, final xor with `0xFFFFFFFF`. -/
def crc32 (bs : List Nat) : Nat :=
  (bs.foldl crcByte 0xFFFFFFFF) ^^^ 0xFFFFFFFF

/-! ## Association-list maps

`std::unordered_map<string,string>` (the memory index, segment snapshots
and merge maps) and the path-indexed filesystem are modelled as
association lists with unique keys.  `upd` is `m[k] = v`
(insert-or-overwrite), `ers` is `m.erase(k)`, `fnd` is `m.find(k)`. -/

def fnd {α β : Type} [DecidableEq α] : List (α × β) → α → Option β
  | [], _ => none
  | (a, b) :: t, k => if a = k then some b else fnd t k

def upd {α β : Type} [DecidableEq α] : List (α × β) → α → β → List (α × β)
  | [], k, v => [(k, v)]
  | (a, b) :: t, k, v => if a = k then (k, v) :: t else (a, b) :: upd t k v

def ers {α β : Type} [DecidableEq α] : List (α × β) → α → List (α × β)
  | [], _ => []
  | (a, b) :: t, k => if a = k then t else (a, b) :: ers t k

/-- The byte-string to byte-string maps held by the engine. -/
abbrev StrMap := List (List Nat × List Nat)

/-! ## Segment record codec (src/src/segment.cpp)

A segment record is `[crc32 | klen | vlen | key | value]` where the crc
covers the `klen ‖ vlen ‖ key ‖ value` body. -/

/-- Encode one segment record exactly as `write_segment` does: the length
fields are the sizes truncated to `uint32_t`, only that many bytes of key
and value are copied into the framed body, and the leading checksum is
the zlib `crc32` of the body, whose `uInt` length argument truncates
`buf.size()` (= `8 + klen + vlen`, exact in `size_t`) modulo 2^32. -/
def encodeSegmentRecord (k v : List Nat) : List Nat :=
  let klen := k.length % 4294967296
  let vlen := v.length % 4294967296
  let body := u32bytes klen ++ (u32bytes vlen ++ (k.take klen ++ v.take vlen))
  u32bytes (crc32 (body.take ((8 + klen + vlen) % 4294967296))) ++ body

/-- The bytes `write_segment` emits for a map: one framed record per
entry, in iteration order. -/
def writeSegmentBytes : StrMap → List Nat
  | [] => []
  | (k, v) :: t => encodeSegmentRecord k v ++ writeSegmentBytes t

/-- Parse one segment record off the front of a byte stream, mirroring
the read loop of `read_segment` / `read_from_segment`: a short read on
any field or a CRC mismatch yields `none` (the loop breaks), otherwise
the key, the value and the unconsumed tail are returned.  The payload
read count `klen + vlen` is 32-bit `unsigned int` arithmetic, so it
wraps modulo 2^32; the rebuilt `buf` of `8 + klen + vlen` bytes (exact
in `size_t`) keeps any unread tail value-initialized to zero; and the
CRC is recomputed over that `buf` with the zlib `uInt` length argument
truncating `buf.size()` modulo 2^32. -/
def parseSegRecord (b : List Nat) : Option (List Nat × List Nat × List Nat) :=
  if b.length < 4 then none
  else if (b.drop 4).length < 4 then none
  else
    let klen := bytesToNatLE ((b.drop 4).take 4)
    if (b.drop 8).length < 4 then none
    else
      let vlen := bytesToNatLE ((b.drop 8).take 4)
      let rc := (klen + vlen) % 4294967296
      if (b.drop 12).length < rc then none
      else
        let kv := (b.drop 12).take rc ++ List.replicate (klen + vlen - rc) 0
        if crc32 ((u32bytes klen ++ (u32bytes vlen ++ kv)).take ((8 + klen + vlen) % 4294967296))
            ≠ bytesToNatLE (b.take 4) then none
        else some (kv.take klen, kv.drop klen, (b.drop 12).drop rc)

/-- The scanning loop of `read_segment`, with an explicit fuel so the
recursion is structural; each parsed record consumes at least 12 bytes,
so `length + 1` fuel always suffices.  Every record is applied with
`out[key] = val` — insert-or-overwrite. -/
def read_segment_fuel : Nat → List Nat → StrMap → StrMap
  | 0, _, out => out
  | fuel + 1, b, out =>
    match parseSegRecord b with
    | none => out
    | some (k, v, rest) => read_segment_fuel fuel rest (upd out k v)

/-- `read_segment` on an in-memory byte string: scan all records into
`out`. -/
def readSegmentBytes (b : List Nat) (out : StrMap) : StrMap :=
  read_segment_fuel (b.length + 1) b out

/-- The scanning loop of `KVEngineImpl::read_from_segment`: return the
value of the first record whose key matches, `none` on end, short read
or CRC mismatch. -/
def lookup_segment_fuel : Nat → List Nat → List Nat → Option (List Nat)
  | 0, _, _ => none
  | fuel + 1, b, key =>
    match parseSegRecord b with
    | none => none
    | some (k, v, rest) => if k = key then some v else lookup_segment_fuel fuel rest key

/-- Point lookup inside one segment's bytes. -/
def lookupSegmentBytes (b : List Nat) (key : List Nat) : Option (List Nat) :=
  lookup_segment_fuel (b.length + 1) b key

/-! ## Intent-log codec (WALImpl)

An intent record is `[crc32 | type | klen | vlen | key | value]` with
`type` 1 = PUT, 2 = DEL; the crc covers `type ‖ klen ‖ vlen ‖ key ‖ value`. -/

inductive WalOpType where
  | PUT
  | DEL
deriving DecidableEq, Repr

/-- Encode one intent record exactly as `WALImpl::append` frames it. -/
def encodeWalRecord (ty : Nat) (k v : List Nat) : List Nat :=
  let kt := k.take (k.length % 4294967296)
  let vt := v.take (v.length % 4294967296)
  let body := ty % 256 :: (u32bytes k.length ++ (u32bytes v.length ++ (kt ++ vt)))
  u32bytes (crc32 body) ++ body

/-- Parse one intent record off the front of the log bytes, mirroring
the read sequence of `WALImpl::replay` (crc, one type byte, the two
length fields, then `klen + vlen` payload bytes, then the CRC check). -/
def parseWalRecord (b : List Nat) : Option (Nat × List Nat × List Nat × List Nat) :=
  if b.length < 4 then none
  else if (b.drop 4).length < 1 then none
  else
    let ty := (b.drop 4).headD 0 % 256
    if (b.drop 5).length < 4 then none
    else
      let klen := bytesToNatLE ((b.drop 5).take 4)
      if (b.drop 9).length < 4 then none
      else
        let vlen := bytesToNatLE ((b.drop 9).take 4)
        if (b.drop 13).length < klen + vlen then none
        else
          let kv := (b.drop 13).take (klen + vlen)
          if crc32 (ty :: (u32bytes klen ++ (u32bytes vlen ++ kv))) ≠ bytesToNatLE (b.take 4) then none
          else some (ty, kv.take klen, kv.drop klen, (b.drop 13).drop (klen + vlen))

/-- The replay loop of `WALImpl::replay`: decode records until the first
failure; the callback runs for type 1 (PUT, with the decoded value) and
type 2 (DEL, with an empty value); records of any other type are skipped
and scanning continues. -/
def wal_replay_fuel : Nat → List Nat → List (WalOpType × List Nat × List Nat)
  | 0, _ => []
  | fuel + 1, b =>
    match parseWalRecord b with
    | none => []
    | some (ty, k, v, rest) =>
      if ty = 1 then (WalOpType.PUT, k, v) :: wal_replay_fuel fuel rest
      else if ty = 2 then (WalOpType.DEL, k, []) :: wal_replay_fuel fuel rest
      else wal_replay_fuel fuel rest

/-- All operations `replay` delivers for a given log contents. -/
def walReplayOps (b : List Nat) : List (WalOpType × List Nat × List Nat) :=
  wal_replay_fuel (b.length + 1) b

/-! ## Engine (src/src/kv_engine.cpp, KVEngineImpl) -/

/-- `Status` of status.h: `ok` or an error with a reason tag. -/
inductive Status where
  | ok : Status
  | error : String → Status
deriving DecidableEq, Repr

/-- `mem_limit = 5`: the memory-index size that triggers a flush. -/
def mem_limit : Nat := 5

/-- `compaction_threshold = 3`: the stack size that triggers compaction. -/
def compaction_threshold : Nat := 3

/-- The engine's state: the memory index `store_`, the segment-stack
vector `segments_` (paths identified by their numeric suffix `N` of
`segments/seg_<N>.sst`), the segment files on disk (suffix ↦ bytes) and
the intent-log file's bytes. -/
structure EngineState where
  store : StrMap
  segments : List Nat
  fs : List (Nat × List Nat)
  wal : List Nat
deriving DecidableEq, Repr

/-- `write_segment(path, data)`: (re)create the file at `path` with the
encoded records.  (The engine ignores the returned `Status`.) -/
def write_segment (fs : List (Nat × List Nat)) (p : Nat) (data : StrMap) : List (Nat × List Nat) :=
  upd fs p (writeSegmentBytes data)

/-- `read_segment(path, out)`: scan the file's records into `out`; a
missing file leaves `out` untouched (open fails, the engine ignores the
`SEGMENT_OPEN_FAILED` status). -/
def read_segment (fs : List (Nat × List Nat)) (p : Nat) (out : StrMap) : StrMap :=
  match fnd fs p with
  | none => out
  | some b => readSegmentBytes b out

/-- `KVEngineImpl::read_from_segment(path, key, value)`: point lookup in
one segment file; `false`/`none` when the file cannot be opened. -/
def read_from_segment (fs : List (Nat × List Nat)) (p : Nat) (key : List Nat) : Option (List Nat) :=
  match fnd fs p with
  | none => none
  | some b => lookupSegmentBytes b key

/-- The `get` iteration over the stack from `rbegin()` to `rend()`
(callers pass the reversed stack): first hit wins. -/
def lookup_stack (fs : List (Nat × List Nat)) : List Nat → List Nat → Option (List Nat)
  | [], _ => none
  | p :: t, key =>
    match read_from_segment fs p key with
    | some v => some v
    | none => lookup_stack fs t key

/-- The merge loop of `compact_segments`: fold `read_segment` over the
drained segment paths, in stack order (oldest first), into one map. -/
def compaction_merge (fs : List (Nat × List Nat)) (paths : List Nat) : StrMap :=
  paths.foldl (fun m p => read_segment fs p m) []

/-- `KVEngineImpl::compact_segments`: swap the stack into a local list
(leaving the member empty), merge the local list's files in stack order
into one map, name the output `segments/seg_<segments_.size()>.sst` —
where `segments_` is the member vector, already emptied by the swap —
write the merged map there, then unlink every path of the local list and
leave the stack holding just the new name. -/
def compact_segments (s : EngineState) : EngineState :=
  let local_segments := s.segments
  let s1 : EngineState := { s with segments := [] }
  let merged := compaction_merge s1.fs local_segments
  let n := s1.segments.length
  let s2 : EngineState := { s1 with fs := write_segment s1.fs n merged }
  { s2 with
    fs := local_segments.foldl (fun f p => ers f p) s2.fs,
    segments := [n] }

/-- `KVEngineImpl::flush_memtable`: drain the memory index into a
snapshot, write it to `segments/seg_<stack.size()>.sst`, push that path,
and compact when the stack has reached the threshold. -/
def flush_memtable (s : EngineState) : EngineState :=
  let snapshot := s.store
  let n := s.segments.length
  let s1 : EngineState := { s with store := [], fs := write_segment s.fs n snapshot }
  let s2 : EngineState := { s1 with segments := s1.segments ++ [n] }
  if compaction_threshold ≤ s2.segments.length then compact_segments s2 else s2

/-- `KVEngineImpl::put`: append the PUT intent (the append's status is
discarded, and the append itself reports OK even when the underlying
writes fail — `writeOk` says whether the log bytes actually land), then
insert into the memory index, then flush when the index has reached
`mem_limit`.  Always returns OK. -/
def put (writeOk : Bool) (k v : List Nat) (s : EngineState) : Status × EngineState :=
  let s1 : EngineState := { s with wal := if writeOk then s.wal ++ encodeWalRecord 1 k v else s.wal }
  let s2 : EngineState := { s1 with store := upd s1.store k v }
  let s3 := if mem_limit ≤ s2.store.length then flush_memtable s2 else s2
  (Status.ok, s3)

/-- `KVEngineImpl::get`: memory index first; then the segment stack
newest-to-oldest; else `KEY_NOT_FOUND`.  Returns the status, the value
delivered through the out-parameter, and the (unchanged) engine state. -/
def get (k : List Nat) (s : EngineState) : Status × Option (List Nat) × EngineState :=
  match fnd s.store k with
  | some v => (Status.ok, some v, s)
  | none =>
    match lookup_stack s.fs s.segments.reverse k with
    | some v => (Status.ok, some v, s)
    | none => (Status.error "KEY_NOT_FOUND", none, s)

/-- `KVEngineImpl::del`: append the DEL intent first (status discarded;
`writeOk` as in `put`), then erase from the memory index if present,
else `KEY_NOT_FOUND`. -/
def del (writeOk : Bool) (k : List Nat) (s : EngineState) : Status × EngineState :=
  let s1 : EngineState := { s with wal := if writeOk then s.wal ++ encodeWalRecord 2 k [] else s.wal }
  match fnd s1.store k with
  | none => (Status.error "KEY_NOT_FOUND", s1)
  | some _ => (Status.ok, { s1 with store := ers s1.store k })

/-- One replayed intent applied to the memory index, as the constructor's
callback does: PUT inserts-or-replaces, DEL erases. -/
def replayApply (st : StrMap) (op : WalOpType × List Nat × List Nat) : StrMap :=
  match op.1 with
  | WalOpType.PUT => upd st op.2.1 op.2.2
  | WalOpType.DEL => ers st op.2.1

/-- `KVEngineImpl`'s constructor: open the log, replay it into the
memory index, and start with an **empty** segment stack — the files
already under `segments/` are not discovered. -/
def initEngine (walBytes : List Nat) (fs0 : List (Nat × List Nat)) : EngineState :=
  { store := (walReplayOps walBytes).foldl replayApply []
    segments := []
    fs := fs0
    wal := walBytes }

/-- The value a key would take from the newest (latest in stack order)
of a list of segment snapshots containing it. -/
def stackNewest : List StrMap → List Nat → Option (List Nat)
  | [], _ => none
  | st :: t, k =>
    match stackNewest t k with
    | some v => some v
    | none => fnd st k

/-! ## Concrete states used to evaluate the engine -/

/-- Engine state just before a compaction: empty memory index, three
segment files `seg_0 … seg_2` on disk holding keys `a`, `b`, `c`. -/
def c1state : EngineState :=
  { store := []
    segments := [0, 1, 2]
    fs := [(0, writeSegmentBytes [([97], [49])]),
           (1, writeSegmentBytes [([98], [50])]),
           (2, writeSegmentBytes [([99], [51])])]
    wal := [] }

/-- A `segments/` directory holding one segment file with key `a`. -/
def c2fs : List (Nat × List Nat) := [(0, writeSegmentBytes [([97], [49])])]

/-- An intent log holding a single PUT record. -/
def c2wal : List Nat := encodeWalRecord 1 [98] [55]

/-- Two segment files with the same key and different values. -/
def c5fs : List (Nat × List Nat) :=
  [(0, writeSegmentBytes [([5], [10])]), (1, writeSegmentBytes [([5], [11])])]

/-- The snapshots the two `c5fs` files were written from. -/
def c5stores : List StrMap := [[([5], [10])], [([5], [11])]]

/-- A state whose key `[7]` lives only in an on-disk segment. -/
def c8state : EngineState :=
  { store := [], segments := [0], fs := [(0, writeSegmentBytes [([7], [8])])], wal := [] }

/-- A state one put away from a flush that reaches the compaction
threshold: four keys in memory, two segments on the stack. -/
def c10state : EngineState :=
  { store := [([100], [1]), ([101], [2]), ([102], [3]), ([103], [4])]
    segments := [0, 1]
    fs := [(0, writeSegmentBytes [([100], [1])]), (1, writeSegmentBytes [([101], [2])])]
    wal := [] }

/-- A state already holding the empty key in its memory index. -/
def c10wstate : EngineState := { store := [([], [7])], segments := [], fs := [], wal := [] }

/-! ## Helper lemmas: fields, CRC bounds, parse-of-encode, round trips -/

theorem u32bytes_length (n : Nat) : (u32bytes n).length = 4 := rfl

theorem bytesToNatLE_u32bytes (n : Nat) : bytesToNatLE (u32bytes n) = n % 4294967296 := by
  simp only [u32bytes, bytesToNatLE]
  omega

theorem crcStep_lt (c : Nat) (h : c < 4294967296) : crcStep c < 4294967296 := by
  unfold crcStep
  split
  · have h1 : c / 2 < 2 ^ 32 := by omega
    have h2 : (0xEDB88320 : Nat) < 2 ^ 32 := by norm_num
    have := Nat.xor_lt_two_pow h1 h2
    omega
  · omega

theorem crcByte_lt (c b : Nat) (h : c < 4294967296) : crcByte c b < 4294967296 := by
  have h0 : c ^^^ (b % 256) < 4294967296 := by
    have h1 : c < 2 ^ 32 := by omega
    have h2 : b % 256 < 2 ^ 32 := by
      have := Nat.mod_lt b (y := 256) (by norm_num)
      omega
    have := Nat.xor_lt_two_pow h1 h2
    omega
  unfold crcByte
  exact crcStep_lt _ (crcStep_lt _ (crcStep_lt _ (crcStep_lt _ (crcStep_lt _
    (crcStep_lt _ (crcStep_lt _ (crcStep_lt _ h0)))))))

theorem crc32_lt (bs : List Nat) : crc32 bs < 4294967296 := by
  unfold crc32
  have hfold : ∀ (l : List Nat) (c : Nat), c < 4294967296 → l.foldl crcByte c < 4294967296 := by
    intro l
    induction l with
    | nil => intro c hc; simpa using hc
    | cons x t ih =>
      intro c hc
      simpa using ih (crcByte c x) (crcByte_lt c x hc)
  have h1 := hfold bs 0xFFFFFFFF (by norm_num)
  have h2 : (0xFFFFFFFF : Nat) < 2 ^ 32 := by norm_num
  have h1' : bs.foldl crcByte 0xFFFFFFFF < 2 ^ 32 := by omega
  have := Nat.xor_lt_two_pow h1' h2
  omega

theorem parseSegRecord_encode (k v rest : List Nat)
    (hkv : 8 + k.length + v.length < 4294967296) :
    parseSegRecord (encodeSegmentRecord k v ++ rest) = some (k, v, rest) := by
  have hk : k.length < 4294967296 := by omega
  have hv : v.length < 4294967296 := by omega
  have hkl : k.length % 4294967296 = k.length := Nat.mod_eq_of_lt hk
  have hvl : v.length % 4294967296 = v.length := Nat.mod_eq_of_lt hv
  have hsum : (8 + k.length + v.length) % 4294967296 = 8 + k.length + v.length :=
    Nat.mod_eq_of_lt hkv
  have hbody_len : (u32bytes k.length ++ (u32bytes v.length ++ (k ++ v))).length
      = 8 + k.length + v.length := by
    simp [u32bytes, List.length_append]
    omega
  have hbody_take : (u32bytes k.length ++ (u32bytes v.length ++ (k ++ v))).take
      ((8 + k.length + v.length) % 4294967296)
      = u32bytes k.length ++ (u32bytes v.length ++ (k ++ v)) := by
    rw [hsum, ← hbody_len, List.take_length]
  set c := crc32 (u32bytes k.length ++ (u32bytes v.length ++ (k ++ v))) with hc
  have hB : encodeSegmentRecord k v ++ rest
      = u32bytes c ++ (u32bytes k.length ++ (u32bytes v.length ++ ((k ++ v) ++ rest))) := by
    simp [encodeSegmentRecord, hkl, hvl, List.take_length, hbody_take, hc, List.append_assoc]
  rw [hB]
  set B := u32bytes c ++ (u32bytes k.length ++ (u32bytes v.length ++ ((k ++ v) ++ rest))) with hBdef
  have hBlen : B.length = 12 + (k.length + v.length) + rest.length := by
    simp [hBdef, u32bytes, List.length_append]
    omega
  have htake4 : B.take 4 = u32bytes c := by
    rw [hBdef]; exact List.take_left' rfl
  have hdrop4 : B.drop 4 = u32bytes k.length ++ (u32bytes v.length ++ ((k ++ v) ++ rest)) := by
    rw [hBdef]; exact List.drop_left' rfl
  have hB8 : B = (u32bytes c ++ u32bytes k.length) ++ (u32bytes v.length ++ ((k ++ v) ++ rest)) := by
    rw [hBdef]; simp [List.append_assoc]
  have hdrop8 : B.drop 8 = u32bytes v.length ++ ((k ++ v) ++ rest) := by
    rw [hB8]; exact List.drop_left' rfl
  have hB12 : B = ((u32bytes c ++ u32bytes k.length) ++ u32bytes v.length) ++ ((k ++ v) ++ rest) := by
    rw [hBdef]; simp [List.append_assoc]
  have hdrop12 : B.drop 12 = (k ++ v) ++ rest := by
    rw [hB12]; exact List.drop_left' rfl
  have hd4take : (B.drop 4).take 4 = u32bytes k.length := by
    rw [hdrop4]; exact List.take_left' rfl
  have hd8take : (B.drop 8).take 4 = u32bytes v.length := by
    rw [hdrop8]; exact List.take_left' rfl
  have hklen : bytesToNatLE ((B.drop 4).take 4) = k.length := by
    rw [hd4take, bytesToNatLE_u32bytes, Nat.mod_eq_of_lt hk]
  have hvlen : bytesToNatLE ((B.drop 8).take 4) = v.length := by
    rw [hd8take, bytesToNatLE_u32bytes, Nat.mod_eq_of_lt hv]
  have hrc : (k.length + v.length) % 4294967296 = k.length + v.length :=
    Nat.mod_eq_of_lt (by omega)
  have hkvt : (B.drop 12).take (k.length + v.length) = k ++ v := by
    rw [hdrop12]; exact List.take_left' (by simp)
  have hrest : (B.drop 12).drop (k.length + v.length) = rest := by
    rw [hdrop12]; exact List.drop_left' (by simp)
  have h1 : ¬ (B.length < 4) := by omega
  have h2 : ¬ ((B.drop 4).length < 4) := by
    rw [List.length_drop]; omega
  have h3 : ¬ ((B.drop 8).length < 4) := by
    rw [List.length_drop]; omega
  have h4 : ¬ ((B.drop 12).length < k.length + v.length) := by
    rw [List.length_drop]; omega
  have hcrc : crc32 (u32bytes k.length ++ (u32bytes v.length ++ (k ++ v)))
      = bytesToNatLE (B.take 4) := by
    rw [htake4, bytesToNatLE_u32bytes, ← hc, Nat.mod_eq_of_lt (crc32_lt _)]
  simp only [parseSegRecord, hklen, hvlen, hrc, Nat.sub_self, List.replicate_zero,
    List.append_nil, hkvt, hrest, hbody_take]
  rw [if_neg h1, if_neg h2, if_neg h3, if_neg h4, if_neg (by rw [hcrc]; exact fun h => h rfl)]
  have hkk : (k ++ v).take k.length = k := List.take_left k v
  have hvv : (k ++ v).drop k.length = v := List.drop_left k v
  rw [hkk, hvv]

theorem parseSegRecord_length {b k v rest : List Nat}
    (h : parseSegRecord b = some (k, v, rest)) : rest.length < b.length := by
  simp only [parseSegRecord] at h
  split at h
  · exact absurd h (by simp)
  split at h
  · exact absurd h (by simp)
  split at h
  · exact absurd h (by simp)
  split at h
  · exact absurd h (by simp)
  split at h
  · exact absurd h (by simp)
  simp only [Option.some.injEq, Prod.mk.injEq] at h
  obtain ⟨-, -, hr⟩ := h
  subst hr
  simp only [List.length_drop] at *
  omega

theorem read_segment_fuel_congr : ∀ (f g : Nat) (b : List Nat) (out : StrMap),
    b.length < f → b.length < g →
    read_segment_fuel f b out = read_segment_fuel g b out := by
  intro f
  induction f with
  | zero => intro g b out hf _; omega
  | succ n ih =>
    intro g b out hf hg
    cases g with
    | zero => omega
    | succ m =>
      simp only [read_segment_fuel]
      cases hp : parseSegRecord b with
      | none => rfl
      | some r =>
        obtain ⟨k, v, rest⟩ := r
        have hlen := parseSegRecord_length hp
        exact ih m rest (upd out k v) (by omega) (by omega)

theorem read_segment_fuel_succ (f : Nat) (b : List Nat) (out : StrMap) :
    read_segment_fuel (f + 1) b out
      = match parseSegRecord b with
        | none => out
        | some (k, v, rest) => read_segment_fuel f rest (upd out k v) := rfl

theorem readSegmentBytes_cons (k v rest : List Nat) (m : StrMap)
    (hkv : 8 + k.length + v.length < 4294967296) :
    readSegmentBytes (encodeSegmentRecord k v ++ rest) m
      = readSegmentBytes rest (upd m k v) := by
  have hp := parseSegRecord_encode k v rest hkv
  have hlen := parseSegRecord_length hp
  calc readSegmentBytes (encodeSegmentRecord k v ++ rest) m
      = read_segment_fuel (encodeSegmentRecord k v ++ rest).length rest (upd m k v) := by
        rw [readSegmentBytes, read_segment_fuel_succ, hp]
    _ = readSegmentBytes rest (upd m k v) :=
        read_segment_fuel_congr _ _ rest (upd m k v) hlen (Nat.lt_succ_self _)

theorem readSegmentBytes_write (entries : StrMap) (m : StrMap)
    (h : ∀ e ∈ entries, 8 + e.1.length + e.2.length < 4294967296) :
    readSegmentBytes (writeSegmentBytes entries) m
      = entries.foldl (fun acc e => upd acc e.1 e.2) m := by
  induction entries generalizing m with
  | nil => rfl
  | cons e t ih =>
    obtain ⟨k, v⟩ := e
    have hkv := h (k, v) (by simp)
    simp only [writeSegmentBytes]
    rw [readSegmentBytes_cons k v _ m hkv, ih (upd m k v) (fun e he => h e (by simp [he]))]
    rfl

theorem fnd_upd {α β : Type} [DecidableEq α] (m : List (α × β)) (a : α) (b : β) (k : α) :
    fnd (upd m a b) k = if a = k then some b else fnd m k := by
  induction m with
  | nil => simp [upd, fnd]
  | cons x t ih =>
    obtain ⟨xa, xb⟩ := x
    by_cases hxa : xa = a
    · subst hxa
      by_cases hak : xa = k <;> simp [upd, fnd, hak]
    · by_cases hxk : xa = k
      · subst hxk
        have : ¬ a = xa := fun h => hxa h.symm
        simp [upd, fnd, hxa, this]
      · simp [upd, fnd, hxa, hxk, ih]

theorem fnd_eq_none_of_not_mem {α β : Type} [DecidableEq α] (m : List (α × β)) (k : α)
    (h : k ∉ m.map Prod.fst) : fnd m k = none := by
  induction m with
  | nil => rfl
  | cons x t ih =>
    simp only [List.map_cons, List.mem_cons] at h
    push_neg at h
    have hx : ¬ x.1 = k := fun he => h.1 he.symm
    obtain ⟨xa, xb⟩ := x
    simp only [fnd, if_neg hx]
    exact ih h.2

/-- Folding the entries of a unique-key map into `m` with overwrite: a key
of the folded map wins, otherwise `m` answers. -/
theorem fnd_foldl_upd {st : StrMap} (m : StrMap) (k : List Nat)
    (hnd : (st.map Prod.fst).Nodup) :
    fnd (st.foldl (fun acc e => upd acc e.1 e.2) m) k
      = match fnd st k with
        | some v => some v
        | none => fnd m k := by
  induction st generalizing m with
  | nil => simp [fnd]
  | cons e t ih =>
    obtain ⟨a, b⟩ := e
    simp only [List.map_cons, List.nodup_cons] at hnd
    simp only [List.foldl_cons]
    rw [ih (upd m a b) hnd.2]
    by_cases hak : a = k
    · subst hak
      have : fnd t a = none := fnd_eq_none_of_not_mem t a hnd.1
      simp [fnd, this, fnd_upd]
    · simp only [fnd, if_neg hak]
      cases h : fnd t k with
      | none => simp [fnd_upd, hak]
      | some w => simp

/-- Merging a list of written-out snapshots with `readSegmentBytes`:
the newest snapshot containing a key wins; otherwise the initial map
answers. -/
theorem fnd_merge_fold (stores : List StrMap) (k : List Nat) (m : StrMap)
    (h : ∀ st ∈ stores, (∀ e ∈ st, 8 + e.1.length + e.2.length < 4294967296)
          ∧ (st.map Prod.fst).Nodup) :
    fnd ((stores.map writeSegmentBytes).foldl (fun acc b => readSegmentBytes b acc) m) k
      = match stackNewest stores k with
        | some v => some v
        | none => fnd m k := by
  induction stores generalizing m with
  | nil => simp [stackNewest]
  | cons st t ih =>
    simp only [List.map_cons, List.foldl_cons]
    rw [readSegmentBytes_write st m (h st (by simp)).1]
    rw [ih _ (fun s hs => h s (by simp [hs]))]
    rw [fnd_foldl_upd m k (h st (by simp)).2]
    simp only [stackNewest]
    cases stackNewest t k <;> cases fnd st k <;> simp

/-- Folding `read_segment` over paths whose files are exactly the
written-out snapshots equals folding `readSegmentBytes` over those
snapshots' bytes. -/
theorem read_segment_foldl_eq (fs : List (Nat × List Nat)) :
    ∀ (paths : List Nat) (stores : List StrMap) (m : StrMap),
    paths.map (fnd fs) = stores.map (fun st => some (writeSegmentBytes st)) →
    paths.foldl (fun acc p => read_segment fs p acc) m
      = (stores.map writeSegmentBytes).foldl (fun acc b => readSegmentBytes b acc) m := by
  intro paths
  induction paths with
  | nil =>
    intro stores m hp
    cases stores with
    | nil => rfl
    | cons => simp at hp
  | cons p t ih =>
    intro stores m hp
    cases stores with
    | nil => simp at hp
    | cons st ts =>
      simp only [List.map_cons, List.cons.injEq] at hp
      simp only [List.foldl_cons, List.map_cons]
      rw [show read_segment fs p m = readSegmentBytes (writeSegmentBytes st) m from by
        simp only [read_segment, hp.1]]
      exact ih ts _ hp.2

/-- Closed form of `compact_segments` on a fully destructured state: the
output suffix is the post-drain stack size `0`, the merged map is written
at suffix `0`, every drained path is then unlinked, and the stack ends as
`[0]`. -/
theorem compact_segments_def (st : StrMap) (sg : List Nat) (f : List (Nat × List Nat)) (w : List Nat) :
    compact_segments ⟨st, sg, f, w⟩ =
      ⟨st, [0],
       sg.foldl (fun acc p => ers acc p)
         (upd f 0 (writeSegmentBytes (compaction_merge f sg))),
       w⟩ := rfl

/-- Closed form of `flush_memtable` on a fully destructured state. -/
theorem flush_memtable_def (st : StrMap) (sg : List Nat) (f : List (Nat × List Nat)) (w : List Nat) :
    flush_memtable ⟨st, sg, f, w⟩ =
      (if compaction_threshold ≤ (sg ++ [sg.length]).length
       then compact_segments ⟨[], sg ++ [sg.length], upd f sg.length (writeSegmentBytes st), w⟩
       else ⟨[], sg ++ [sg.length], upd f sg.length (writeSegmentBytes st), w⟩) := rfl

/-- `flush_memtable` neither reads nor writes the intent-log bytes. -/
theorem flush_memtable_wal (st : StrMap) (sg : List Nat) (f : List (Nat × List Nat)) (w w' : List Nat) :
    flush_memtable ⟨st, sg, f, w'⟩ = { flush_memtable ⟨st, sg, f, w⟩ with wal := w' } := by
  rw [flush_memtable_def, flush_memtable_def]
  by_cases h : compaction_threshold ≤ (sg ++ [sg.length]).length
  · rw [if_pos h, if_pos h, compact_segments_def, compact_segments_def]
  · rw [if_neg h, if_neg h]

/-! ## The claims -/

set_option maxRecDepth 400000 in
/-- C1: the spec requires compaction to preserve the visible state —
`get(k)` before and after a compaction must agree, including for keys
whose only copy lives in the compacted segments.  The code violates
this: it names the consolidated segment from the *already-emptied* stack
(always `seg_0`), overwrites the oldest input, and then unlinks every
input path — including the file it just wrote.  On a state with keys
`a`, `b`, `c` living only in segments `seg_0 … seg_2`, `get a` succeeds
with its value before the compaction and returns `KEY_NOT_FOUND` right
after it, the merged file having been deleted. -/
theorem compaction_loses_visible_state :
    (get [97] c1state).1 = Status.ok
  ∧ (get [97] c1state).2.1 = some [49]
  ∧ (get [97] (compact_segments c1state)).1 = Status.error "KEY_NOT_FOUND"
  ∧ fnd (compact_segments c1state).fs 0 = none := by decide

set_option maxRecDepth 400000 in
/-- C2 counterexample: with one segment file on disk holding key `a` and
an empty intent log, the freshly constructed engine has an *empty*
segment stack and `get a` answers `KEY_NOT_FOUND` — the constructor does
not discover existing files under `segments/`, contrary to the claim. -/
theorem init_does_not_discover_segments :
    (initEngine [] c2fs).segments = []
  ∧ (get [97] (initEngine [] c2fs)).1 = Status.error "KEY_NOT_FOUND" := by decide

/-- C2 as amended: after replaying the intent log, the constructor
leaves the segment stack empty whatever is on disk, so any key the
replayed memory index does not hold — in particular one whose only copy
is in an on-disk segment — is answered `KEY_NOT_FOUND` by `get`. -/
theorem init_segment_stack_starts_empty (w : List Nat) (fs0 : List (Nat × List Nat))
    (k : List Nat) (h : fnd (initEngine w fs0).store k = none) :
    (initEngine w fs0).segments = []
  ∧ (get k (initEngine w fs0)).1 = Status.error "KEY_NOT_FOUND" := by
  refine ⟨rfl, ?_⟩
  simp only [initEngine] at h
  simp [get, h, initEngine, lookup_stack]

set_option maxRecDepth 400000 in
/-- C2 witness: a log with one PUT of key `[98]` replays into the
memory index, the stack still starts empty, and the segment-only key
`[99]`-free lookup misses. -/
theorem init_segment_stack_starts_empty_witness :
    fnd (initEngine c2wal c2fs).store [99] = none
  ∧ ((initEngine c2wal c2fs).segments = []
      ∧ (get [99] (initEngine c2wal c2fs)).1 = Status.error "KEY_NOT_FOUND") :=
  ⟨by decide, init_segment_stack_starts_empty c2wal c2fs [99] (by decide)⟩

set_option maxRecDepth 400000 in
/-- C3 counterexample: starting from the empty engine, a `put` whose
intent-log append persists nothing (the underlying writes fail; no bytes
land in the log) still returns OK and inserts the pair into the memory
index — the claim's required error return and untouched index both fail. -/
theorem put_reports_ok_despite_wal_failure :
    (put false [107] [118] ⟨[], [], [], []⟩).1 = Status.ok
  ∧ fnd (put false [107] [118] ⟨[], [], [], []⟩).2.store [107] = some [118]
  ∧ (put false [107] [118] ⟨[], [], [], []⟩).2.wal = [] := by decide

/-- C3 as amended: `WALImpl::append` ignores the results of its `write`
calls and always reports OK, and `put` discards that status anyway: a
`put` whose log append fails still returns OK and leaves the engine in
exactly the state a successful append would have produced, except that
the log bytes are unchanged. -/
theorem put_ignores_wal_append_result (k v : List Nat) (s : EngineState) :
    (put false k v s).1 = Status.ok
  ∧ (put false k v s).2 = { (put true k v s).2 with wal := s.wal } := by
  obtain ⟨st, sg, f, w⟩ := s
  refine ⟨rfl, ?_⟩
  show (if mem_limit ≤ (upd st k v).length
        then flush_memtable ⟨upd st k v, sg, f, w⟩ else ⟨upd st k v, sg, f, w⟩)
     = { (if mem_limit ≤ (upd st k v).length
          then flush_memtable ⟨upd st k v, sg, f, w ++ encodeWalRecord 1 k v⟩
          else ⟨upd st k v, sg, f, w ++ encodeWalRecord 1 k v⟩) with wal := w }
  by_cases h : mem_limit ≤ (upd st k v).length
  · rw [if_pos h, if_pos h, flush_memtable_def, flush_memtable_def]
    by_cases h2 : compaction_threshold ≤ (sg ++ [sg.length]).length
    · rw [if_pos h2, if_pos h2, compact_segments_def, compact_segments_def]
    · rw [if_neg h2, if_neg h2]
  · rw [if_neg h, if_neg h]

/-- C4 counterexample: compacting a stack of three segments `[0, 1, 2]`
(pre-drain size 3) picks suffix `0`, not `3`, and `0` is itself one of
the input paths — the chosen path does not differ from every input. -/
theorem compaction_name_collides_with_input :
    (compact_segments ⟨[], [0, 1, 2], [], []⟩).segments = [0]
  ∧ (compact_segments ⟨[], [0, 1, 2], [], []⟩).segments ≠ [3]
  ∧ 0 ∈ (⟨[], [0, 1, 2], [], []⟩ : EngineState).segments := by decide

/-- C4 as amended: the suffix `N` of the consolidated segment's path is
read from the member vector *after* the swap emptied it, so it is always
the post-drain stack size `0` — and therefore collides with the oldest
input path whenever `seg_0` is on the stack, rather than differing from
every input. -/
theorem compaction_chooses_postdrain_suffix (st : StrMap) (sg : List Nat)
    (f : List (Nat × List Nat)) (w : List Nat) :
    (compact_segments ⟨st, sg, f, w⟩).segments = [0] := by
  rw [compact_segments_def]

/-- C5: in the merged map compaction builds — `read_segment` folded over
the drained paths in stack order, oldest first — a key present in
several input segments keeps the value of the newest input: the fold
overwrites on duplicate keys, so the latest position in the stack wins. -/
theorem compaction_newest_input_wins (fs : List (Nat × List Nat)) (paths : List Nat)
    (stores : List StrMap) (k : List Nat)
    (hfiles : paths.map (fnd fs) = stores.map (fun st => some (writeSegmentBytes st)))
    (hwf : ∀ st ∈ stores, (∀ e ∈ st, 8 + e.1.length + e.2.length < 4294967296)
            ∧ (st.map Prod.fst).Nodup) :
    fnd (compaction_merge fs paths) k = stackNewest stores k := by
  unfold compaction_merge
  rw [read_segment_foldl_eq fs paths stores [] hfiles]
  rw [fnd_merge_fold stores k [] hwf]
  cases stackNewest stores k <;> simp [fnd]

set_option maxRecDepth 400000 in
/-- C5 witness: merging two segments that both hold key `[5]` keeps the
newer value `[11]`. -/
theorem compaction_newest_input_wins_witness :
    fnd (compaction_merge c5fs [0, 1]) [5] = some [11] :=
  (compaction_newest_input_wins c5fs [0, 1] c5stores [5] (by decide) (by decide)).trans (by decide)

set_option maxRecDepth 400000 in
/-- C6 counterexample: scanning a segment holding key `[107]` with value
`[110]` into a map that already binds `[107]` to `[111]` *replaces* the
binding — the existing entry is not left as-is, refuting the claimed
first-write-wins semantics. -/
theorem read_segment_overwrites_existing_entry :
    readSegmentBytes (writeSegmentBytes [([107], [110])]) [([107], [111])] = [([107], [110])]
  ∧ readSegmentBytes (writeSegmentBytes [([107], [110])]) [([107], [111])] ≠ [([107], [111])] := by
  decide

/-- C6 as amended: `read_segment` has *last*-write-wins semantics within
a single scan — each decoded record is applied with `out[key] = val`,
overwriting any existing entry for the key and inserting absent keys. -/
theorem read_segment_into_last_write_wins (m : StrMap) (k v rest : List Nat)
    (hkv : 8 + k.length + v.length < 4294967296) :
    readSegmentBytes (encodeSegmentRecord k v ++ rest) m = readSegmentBytes rest (upd m k v)
  ∧ fnd (upd m k v) k = some v := by
  refine ⟨readSegmentBytes_cons k v rest m hkv, ?_⟩
  rw [fnd_upd]
  simp

set_option maxRecDepth 400000 in
/-- C6 witness: one record with key `[1]` scanned into a map that
already binds `[1]` overwrites the old value. -/
theorem read_segment_into_last_write_wins_witness :
    readSegmentBytes (encodeSegmentRecord [1] [2] ++ []) [([1], [9])]
      = readSegmentBytes [] (upd [([1], [9])] [1] [2])
  ∧ fnd (upd [([1], [9])] [1] [2]) [1] = some [2] :=
  read_segment_into_last_write_wins [([1], [9])] [1] [2] [] (by decide)

/-- C7 counterexample: a record whose framed body has 16777218 bytes —
beyond the claimed 16 MiB maximum — is written out by the segment writer
and decoded back intact by the segment reader; no size check exists. -/
theorem oversized_record_accepted :
    16777216 < 8 + ([120] : List Nat).length + (List.replicate 16777209 (0 : Nat)).length
  ∧ readSegmentBytes (writeSegmentBytes [([120], List.replicate 16777209 0)]) []
      = [([120], List.replicate 16777209 0)] := by
  constructor
  · rw [List.length_replicate]
    norm_num
  · have h1 : (8 : Nat) + ([120] : List Nat).length
        + (List.replicate 16777209 (0 : Nat)).length < 4294967296 := by
      rw [List.length_replicate]
      norm_num
    calc readSegmentBytes (writeSegmentBytes [([120], List.replicate 16777209 0)]) []
        = readSegmentBytes (encodeSegmentRecord [120] (List.replicate 16777209 0) ++ []) [] :=
          rfl
      _ = readSegmentBytes [] (upd [] [120] (List.replicate 16777209 0)) :=
          readSegmentBytes_cons [120] (List.replicate 16777209 0) [] [] h1
      _ = [([120], List.replicate 16777209 0)] := rfl

/-- C7 as amended: no 16 MiB maximum exists — a record whose framed body
exceeds 16 MiB is both framed by `write_segment` and read back verbatim
by `read_segment`, the implementation containing no size check at all;
this holds throughout the range where the 32-bit framing arithmetic is
exact (framed body `8 + klen + vlen` below 2^32 bytes). -/
theorem beyond_16MiB_records_accepted (k v : List Nat)
    (h : 8 + k.length + v.length < 4294967296) :
    readSegmentBytes (writeSegmentBytes [(k, v)]) [] = [(k, v)] := by
  have hr := readSegmentBytes_write [(k, v)] []
    (by intro e he; simp only [List.mem_singleton] at he; rw [he]; exact h)
  exact hr.trans rfl

/-- C7 witness: a record with a 20 MB value — well past the claimed
16 MiB limit — round-trips through the writer and reader. -/
theorem beyond_16MiB_records_accepted_witness :
    readSegmentBytes (writeSegmentBytes [([120], List.replicate 20000000 (0 : Nat))]) []
      = [([120], List.replicate 20000000 0)] :=
  beyond_16MiB_records_accepted [120] (List.replicate 20000000 0)
    (by rw [List.length_replicate]; norm_num)

/-- C8: `del` always appends the delete intent to the log before
consulting the memory index, and for a key absent from the memory index
— even one still readable from an on-disk segment — it returns
`KEY_NOT_FOUND` and leaves the index unchanged. -/
theorem del_appends_intent_and_checks_memory_only (k : List Nat) (s : EngineState) :
    (del true k s).2.wal = s.wal ++ encodeWalRecord 2 k []
  ∧ (fnd s.store k = none →
      (del true k s).1 = Status.error "KEY_NOT_FOUND" ∧ (del true k s).2.store = s.store) := by
  obtain ⟨st, sg, f, w⟩ := s
  cases hf : fnd st k <;> simp [del, hf]

set_option maxRecDepth 400000 in
/-- C8 witness: key `[7]` lives only in a segment — `get` still finds
it, yet `del` logs the intent and answers `KEY_NOT_FOUND`. -/
theorem del_appends_intent_and_checks_memory_only_witness :
    (get [7] c8state).1 = Status.ok
  ∧ (del true [7] c8state).2.wal = c8state.wal ++ encodeWalRecord 2 [7] []
  ∧ ((del true [7] c8state).1 = Status.error "KEY_NOT_FOUND"
      ∧ (del true [7] c8state).2.store = c8state.store) :=
  ⟨by decide, (del_appends_intent_and_checks_memory_only [7] c8state).1,
   (del_appends_intent_and_checks_memory_only [7] c8state).2 (by decide)⟩

/-- C9: `get` is read-only — whatever it returns, the engine state it
hands back (memory index, segment stack, segment files and intent log
alike) is exactly the state it was given. -/
theorem get_is_read_only (k : List Nat) (s : EngineState) : (get k s).2.2 = s := by
  simp only [get]
  cases hf : fnd s.store k with
  | some v => rfl
  | none =>
    cases hl : lookup_stack s.fs s.segments.reverse k with
    | some v => rfl
    | none => rfl

set_option maxRecDepth 400000 in
/-- C10 counterexample: from a state with four keys in memory and two
segments on the stack, `put` of the empty key returns OK but the
triggered flush reaches the compaction threshold, and the compaction
defect destroys the freshly flushed segment — the immediately following
`get` of the empty key answers `KEY_NOT_FOUND` instead of the value. -/
theorem empty_key_value_lost_by_compaction :
    (put true [] [42] c10state).1 = Status.ok
  ∧ (get [] (put true [] [42] c10state).2).1 = Status.error "KEY_NOT_FOUND" := by decide

/-- C10 as amended: no operation rejects the empty key — `put` of the
empty key returns OK and inserts it like any other key, a `get` issued
while the pair is still in the memory index (the put did not trigger a
flush) returns the value, and `del` of a present empty key succeeds; but
when the put triggers a flush that reaches the compaction threshold the
pair is lost exactly as any other key would be. -/
theorem empty_key_accepted (v : List Nat) (s : EngineState) :
    (put true [] v s).1 = Status.ok
  ∧ ((upd s.store [] v).length < mem_limit →
      (get [] (put true [] v s).2).1 = Status.ok
      ∧ (get [] (put true [] v s).2).2.1 = some v)
  ∧ (∀ w, fnd s.store [] = some w → (del true [] s).1 = Status.ok) := by
  obtain ⟨st, sg, f, w⟩ := s
  refine ⟨rfl, ?_, ?_⟩
  · intro h
    change (upd st [] v).length < mem_limit at h
    have hcond : ¬ (mem_limit ≤ (upd st [] v).length) := by omega
    simp [put, if_neg hcond, get, fnd_upd]
  · intro w' hw'
    simp [del, hw']

set_option maxRecDepth 400000 in
/-- C10 witness: on a state already holding the empty key, `put` of the
empty key succeeds, the immediate `get` returns the new value, and `del`
of the empty key succeeds. -/
theorem empty_key_accepted_witness :
    (put true [] [42] c10wstate).1 = Status.ok
  ∧ ((get [] (put true [] [42] c10wstate).2).1 = Status.ok
      ∧ (get [] (put true [] [42] c10wstate).2).2.1 = some [42])
  ∧ (del true [] c10wstate).1 = Status.ok :=
  ⟨(empty_key_accepted [42] c10wstate).1,
   (empty_key_accepted [42] c10wstate).2.1 (by decide),
   (empty_key_accepted [42] c10wstate).2.2 [7] (by decide)⟩

end PureKV
